import Mathlib

/-!
Shallow embedding of the Willhaben car-listing acquisition and reconciliation
pipeline (`app.py`) and verification of the frozen claims about it.

Timestamps are modelled as integers (seconds); `datetime.utcnow()` becomes an
explicit `now : Int` parameter.  A nullable JSON column holding a list is
modelled as a plain list (the code treats `None` and `[]` identically via
`car.image_urls or []` and truthiness tests).  Optional columns become
`Option`.  Fallible routines are modelled with `Except`.
-/

/-- One persisted listing row (`Car` model, app.py lines 58-105).  Bookkeeping
columns that no claim mentions (`currency`, `fuel_type`, `transmission`,
`created_at`, `updated_at`) are omitted. -/
structure Car where
  listingId : String
  title : String
  price : Option Int
  brand : Option String
  model : Option String
  year : Option Nat
  mileage : Option Nat
  location : Option String
  imageUrls : List String
  url : String
  description : String
  postedAt : Option Int
  firstSeenAt : Int
  lastSeenAt : Int
  isActive : Bool
deriving DecidableEq

/-- One freshly assembled batch record (`car_data` dict, app.py lines 400-416). -/
structure CarData where
  listingId : String
  title : String
  price : Option Int
  brand : Option String
  model : Option String
  year : Option Nat
  mileage : Option Nat
  location : Option String
  imageUrls : List String
  url : String
  description : String
  postedAt : Option Int
deriving DecidableEq

/-- One `ScrapingLog` row (app.py lines 108-118); `cars_found/added/updated`,
`status` and `error_message`. -/
structure ScrapingLog where
  carsFound : Nat
  carsAdded : Nat
  carsUpdated : Nat
  status : String
  errorMessage : Option String
deriving DecidableEq

def statusSuccess : String := "success"

def statusFailed : String := "failed"

/-- Seconds per day; `timedelta(days=n)` is modelled as `n * secondsPerDay`. -/
def secondsPerDay : Int := 86400

/-- Retention sweeper (`cleanup_inactive_cars`, app.py lines 877-897): delete
every car with `is_active == False` and `last_seen_at < utcnow() - 7 days`. -/
def cleanupInactiveCars (store : List Car) (now : Int) : List Car :=
  let cutoff := now - 7 * secondsPerDay
  store.filter (fun c => !(!c.isActive && decide (c.lastSeenAt < cutoff)))

/-- Row lookup `Car.query.filter_by(listing_id=...).first()` viewed as an
existence test (app.py line 684). -/
def containsId (store : List Car) (lid : String) : Bool :=
  store.any (fun c => c.listingId == lid)

/-- Membership of an id in the batch id set (`listing_id.notin_(current_listing_ids)`
negated; the set is modelled as the list of batch ids). -/
def containsStr (xs : List String) (s : String) : Bool :=
  xs.any (fun x => x == s)

/-- Update of an existing row on re-observation (app.py lines 686-697):
`last_seen_at` and `is_active` are refreshed, `price` is overwritten
unconditionally with the batch value, `posted_at` and `image_urls` only when the
batch record carries a truthy (non-None resp. nonempty) value. -/
def updateExisting (c : Car) (d : CarData) (now : Int) : Car :=
  { c with
    lastSeenAt := now
    isActive := true
    price := d.price
    postedAt := match d.postedAt with | some p => some p | none => c.postedAt
    imageUrls := if d.imageUrls ≠ [] then d.imageUrls else c.imageUrls }

/-- Insertion of a brand-new row (`Car(**car_data)`, app.py lines 698-704): the
column defaults (app.py lines 77-79) set `first_seen_at` and `last_seen_at` to
the current instant and `is_active` to `True`; the insertion instant is modelled
by the single parameter `now`. -/
def newCar (d : CarData) (now : Int) : Car :=
  { listingId := d.listingId, title := d.title, price := d.price, brand := d.brand,
    model := d.model, year := d.year, mileage := d.mileage, location := d.location,
    imageUrls := d.imageUrls, url := d.url, description := d.description,
    postedAt := d.postedAt, firstSeenAt := now, lastSeenAt := now, isActive := true }

/-- Mutation of the single row returned by `filter_by(listing_id=...).first()`:
the first row with the given id (`listing_id` is unique in the database). -/
def updateFirst (lid : String) (f : Car → Car) : List Car → List Car
  | [] => []
  | c :: rest => if c.listingId == lid then f c :: rest else c :: updateFirst lid f rest

/-- Accumulator of the per-record loop of `scrape_and_store_cars`. -/
structure LoopState where
  store : List Car
  added : Nat
  updated : Nat
  newIds : List String
deriving DecidableEq

/-- One iteration of the reconciliation loop (app.py lines 683-704): update when
the id is already persisted, insert otherwise. -/
def processCar (now : Int) (st : LoopState) (d : CarData) : LoopState :=
  if containsId st.store d.listingId then
    { st with
      store := updateFirst d.listingId (fun c => updateExisting c d now) st.store
      updated := st.updated + 1 }
  else
    { st with
      store := st.store ++ [newCar d now]
      added := st.added + 1
      newIds := st.newIds ++ [d.listingId] }

/-- The batch id set `{car['listing_id'] for car in scraped_cars}` (app.py
line 681), as the list of batch ids. -/
def batchIds (scraped : List CarData) : List String :=
  scraped.map (fun d => d.listingId)

/-- Bulk deactivation (app.py lines 708-713): every active row whose id is
absent from the batch id set gets `is_active = False`. -/
def deactivateMissing (ids : List String) (store : List Car) : List Car :=
  store.map (fun c =>
    if !containsStr ids c.listingId && c.isActive then { c with isActive := false } else c)

/-- Result of the per-record loop of `scrape_and_store_cars`. -/
def loopResult (scraped : List CarData) (store : List Car) (now : Int) : LoopState :=
  scraped.foldl (processCar now) ⟨store, 0, 0, []⟩

/-- Successful-path body of `scrape_and_store_cars` (app.py lines 661-732):
per-record upsert loop, then deactivation guarded by
`current_listing_ids and len(scraped_cars) > 10`, then the run statistics
(found/added/updated, status success).  Returns the new store, the log row and
the newly added ids handed to priority enrichment. -/
def scrapeAndStoreCars (scraped : List CarData) (store : List Car) (now : Int) :
    List Car × ScrapingLog × List String :=
  ((if batchIds scraped ≠ [] ∧ scraped.length > 10
    then deactivateMissing (batchIds scraped) (loopResult scraped store now).store
    else (loopResult scraped store now).store),
   { carsFound := scraped.length, carsAdded := (loopResult scraped store now).added,
     carsUpdated := (loopResult scraped store now).updated,
     status := statusSuccess, errorMessage := none },
   (loopResult scraped store now).newIds)

/-- Top-level barrier of `scrape_and_store_cars` (app.py lines 668, 734-739): an
exception escaping the run is caught, the log row is marked failed with the
captured message, and the job returns instead of propagating (totality of this
function is the shallow-embedding reading of "no exception escapes").  On the
failure path `cars_found` keeps its column default 0. -/
def scrapeJob (result : Except String (List CarData)) (store : List Car) (now : Int) :
    List Car × ScrapingLog × List String :=
  match result with
  | Except.ok scraped => scrapeAndStoreCars scraped store now
  | Except.error msg =>
      (store,
       { carsFound := 0, carsAdded := 0, carsUpdated := 0, status := statusFailed,
         errorMessage := some msg },
       [])

/-- Per-candidate assembly loop of `WillhabenScraper.scrape_listings` (app.py
lines 277-423): each candidate either assembles to a record (`cars.append`) or
raises; an exception is caught and the candidate skipped
(`except Exception: ... continue`). -/
def assembleAux (acc : List CarData) : List (Except String CarData) → List CarData
  | [] => acc
  | Except.ok d :: rest => assembleAux (acc ++ [d]) rest
  | Except.error _ :: rest => assembleAux acc rest

def assembleCandidates (candidates : List (Except String CarData)) : List CarData :=
  assembleAux [] candidates

/-- Per-listing update of the regular enrichment pass
(`enrich_cars_with_images`, app.py lines 789-804): `image_urls` is replaced only
when the new gallery is nonempty and strictly larger than
`max(len(car.image_urls or []), 1)`; `posted_at` is replaced when a value was
extracted and differs from the stored one. -/
def enrichUpdate (c : Car) (images : List String) (postedAt : Option Int) : Car :=
  let c1 := if images ≠ [] ∧ images.length > max c.imageUrls.length 1
            then { c with imageUrls := images } else c
  match postedAt with
  | some p => if c.postedAt ≠ some p then { c1 with postedAt := some p } else c1
  | none => c1

/-- Per-listing update of the out-of-band priority enrichment
(`priority_enrich_latest`, app.py lines 847-861): `image_urls` is replaced when
the new gallery is nonempty and the stored list is falsy or has at most one
entry; `posted_at` is replaced when a value was extracted and the stored one is
absent or differs. -/
def priorityEnrichUpdate (c : Car) (images : List String) (postedAt : Option Int) : Car :=
  let c1 := if images ≠ [] ∧ (c.imageUrls = [] ∨ c.imageUrls.length ≤ 1)
            then { c with imageUrls := images } else c
  match postedAt with
  | some p =>
      if c.postedAt = none ∨ c.postedAt ≠ some p then { c1 with postedAt := some p } else c1
  | none => c1

-- Concrete cars for the retention-sweeper witness: both inactive, last seen
-- 8 days resp. 6 days before `now = 0`.

def carOld : Car :=
  { listingId := "101", title := "old", price := none, brand := none, model := none,
    year := none, mileage := none, location := none, imageUrls := [], url := "u101",
    description := "", postedAt := none, firstSeenAt := -8 * secondsPerDay,
    lastSeenAt := -8 * secondsPerDay, isActive := false }

def carRecent : Car :=
  { listingId := "102", title := "recent", price := none, brand := none, model := none,
    year := none, mileage := none, location := none, imageUrls := [], url := "u102",
    description := "", postedAt := none, firstSeenAt := -6 * secondsPerDay,
    lastSeenAt := -6 * secondsPerDay, isActive := true }

def carRecentInactive : Car := { carRecent with isActive := false }

/-- Template batch record used by the reconciliation witnesses. -/
def mkData (lid : String) : CarData :=
  { listingId := lid, title := "t", price := none, brand := none, model := none,
    year := none, mileage := none, location := none, imageUrls := [], url := "u",
    description := "", postedAt := none }

/-- A persisted active car whose id (999) is absent from the numbered batches. -/
def carA : Car :=
  { listingId := "999", title := "a", price := none, brand := none, model := none,
    year := none, mileage := none, location := none, imageUrls := [], url := "u999",
    description := "", postedAt := none, firstSeenAt := 0, lastSeenAt := 0,
    isActive := true }

/-- A persisted car that is already inactive before the run. -/
def carInact : Car := { carA with listingId := "998", isActive := false }

def batch11 : List CarData :=
  (["1", "2", "3", "4", "5", "6", "7", "8", "9", "10", "11"]).map mkData

def batch5 : List CarData := (["1", "2", "3", "4", "5"]).map mkData

/-- A one-record batch re-observing `carA`. -/
def batchA : List CarData := (["999"]).map mkData

/-- A persisted car with known price, posted time and one image. -/
def carKnown : Car :=
  { listingId := "111", title := "k", price := some 5000, brand := none, model := none,
    year := none, mileage := none, location := none, imageUrls := ["i1"], url := "u111",
    description := "", postedAt := some 100, firstSeenAt := 0, lastSeenAt := 0,
    isActive := true }

/-- A batch record for the same id whose optional extractions all came back
absent/empty. -/
def dataAbsent : CarData :=
  { listingId := "111", title := "k", price := none, brand := none, model := none,
    year := none, mileage := none, location := none, imageUrls := [], url := "u111",
    description := "", postedAt := none }

/-- A batch record for the same id with fresh price, posted time and image. -/
def dataFull : CarData :=
  { dataAbsent with price := some 7000, postedAt := some 200, imageUrls := ["i2", "i3"] }

/-- `carA` after the bulk deactivation step. -/
def carADeact : Car := { carA with isActive := false }

/-- A persisted car with an empty stored image list. -/
def carNoImg : Car := { carKnown with listingId := "201", imageUrls := [] }

/-- A persisted car with exactly one stored image. -/
def carOneImg : Car := { carKnown with listingId := "202", imageUrls := ["a"] }

def imgsOne : List String := ["x"]

def imgsTwo : List String := ["x", "y"]

/-- Python's `\w` (word character) restricted to ASCII; all inputs considered
here are ASCII. -/
def isWordChar (ch : Char) : Bool := ch.isAlphanum || ch == '_'

/-- The regex boundary `\b` immediately before a digit: start of text or a
non-word character before the match. -/
def boundaryBefore : Option Char → Bool
  | none => true
  | some p => !isWordChar p

/-- The regex boundary `\b` immediately after the 4th digit: end of text or a
non-word character following. -/
def boundaryAfter : List Char → Bool
  | [] => true
  | e :: _ => !isWordChar e

/-- Numeric value of a digit character (`int` of the matched group). -/
def digitVal (ch : Char) : Nat := ch.toNat - 48

/-- `int(match.group(0))` for a 4-digit match. -/
def tokenVal (a b c d : Char) : Nat :=
  1000 * digitVal a + 100 * digitVal b + 10 * digitVal c + digitVal d

/-- The character classes of the source regex alternation `19\d{2}|20[0-2]\d`
(app.py line 450). -/
def yearDigits (a b c d : Char) : Bool :=
  (a == '1' && b == '9' && c.isDigit && d.isDigit) ||
  (a == '2' && b == '0' && (c == '0' || c == '1' || c == '2') && d.isDigit)

/-- One attempted match of `\b(19\d{2}|20[0-2]\d)\b` at the current position. -/
def yearTokenAt (prev : Option Char) : List Char → Option Nat
  | a :: b :: c :: d :: rest =>
      if boundaryBefore prev && yearDigits a b c d && boundaryAfter rest then
        some (tokenVal a b c d)
      else none
  | _ => none

/-- `re.search`: leftmost position at which the pattern matches. -/
def findPatternYear : Option Char → List Char → Option Nat
  | _, [] => none
  | prev, ch :: rest =>
      match yearTokenAt prev (ch :: rest) with
      | some v => some v
      | none => findPatternYear (some ch) rest

/-- `WillhabenScraper._extract_year` (app.py lines 448-458): the first regex
match of `\b(19\d{2}|20[0-2]\d)\b` is converted to an integer and returned only
if it lies in the hardcoded plausibility window `1990 <= year <= 2025`;
otherwise the extractor returns absent without considering later tokens. -/
def extractYear (text : String) : Option Nat :=
  match findPatternYear none text.data with
  | some y => if 1990 ≤ y ∧ y ≤ 2025 then some y else none
  | none => none

/-- A word-boundary-delimited 4-digit token at the current position, by value
(used by the claim-side definitions). -/
def fourDigitTokenAt (prev : Option Char) : List Char → Option Nat
  | a :: b :: c :: d :: rest =>
      if boundaryBefore prev = true ∧ a.isDigit = true ∧ b.isDigit = true
          ∧ c.isDigit = true ∧ d.isDigit = true ∧ boundaryAfter rest = true then
        some (tokenVal a b c d)
      else none
  | _ => none

/-- Claim-side scan: the first 4-digit token whose value lies in [1900,2099] and
in the plausibility window [1990, currentYear+1]; tokens failing either test are
skipped and the scan continues. -/
def findClaimYear (cy : Nat) : Option Char → List Char → Option Nat
  | _, [] => none
  | prev, ch :: rest =>
      match fourDigitTokenAt prev (ch :: rest) with
      | some v =>
          if 1900 ≤ v ∧ v ≤ 2099 ∧ 1990 ≤ v ∧ v ≤ cy + 1 then some v
          else findClaimYear cy (some ch) rest
      | none => findClaimYear cy (some ch) rest

/-- The year extractor exactly as the claim words it: the first 4-digit token in
[1900,2099] that also lies in [1990, currentYear+1], absent when no such token
exists. -/
def specYearClaim (text : String) (currentYear : Nat) : Option Nat :=
  findClaimYear currentYear none text.data

/-- Amended-claim token test: a boundary-delimited 4-digit token whose value
lies in [1900,2029] (the actual numeric range of the source regex). -/
def rangeTokenAt (prev : Option Char) : List Char → Option Nat
  | a :: b :: c :: d :: rest =>
      if boundaryBefore prev = true ∧ a.isDigit = true ∧ b.isDigit = true
          ∧ c.isDigit = true ∧ d.isDigit = true
          ∧ 1900 ≤ tokenVal a b c d ∧ tokenVal a b c d ≤ 2029
          ∧ boundaryAfter rest = true then
        some (tokenVal a b c d)
      else none
  | _ => none

def findRangeYear : Option Char → List Char → Option Nat
  | _, [] => none
  | prev, ch :: rest =>
      match rangeTokenAt prev (ch :: rest) with
      | some v => some v
      | none => findRangeYear (some ch) rest

/-- The year extractor as the amended claim words it: take the first 4-digit
boundary-delimited token with value in [1900,2029]; return it only if it lies in
[1990,2025], else absent (later tokens are never considered). -/
def specYearAmended (text : String) : Option Nat :=
  match findRangeYear none text.data with
  | some y => if 1990 ≤ y ∧ y ≤ 2025 then some y else none
  | none => none

def txtBaujahr : String := "Baujahr 2021, 1.999ccm"

def txt3102 : String := "3102"

def txtTwoYears : String := "2029 2021"

/-- Python `str.upper()` restricted to ASCII (all titles considered here are
ASCII). -/
def upperL (s : List Char) : List Char := s.map Char.toUpper

/-- Exact prefix test on character lists. -/
def startsWithCL : List Char → List Char → Bool
  | [], _ => true
  | _ :: _, [] => false
  | p :: ps, t :: ts => p == t && startsWithCL ps ts

/-- Python's substring test `pat in s`. -/
def hasSubstrCL (pat : List Char) : List Char → Bool
  | [] => pat.isEmpty
  | t :: ts => startsWithCL pat (t :: ts) || hasSubstrCL pat ts

/-- The fixed brand catalog of `_parse_brand_model` (app.py lines 535-544), in
source order. -/
def commonBrands : List String :=
  ["Abarth", "Alfa Romeo", "Aston Martin", "Audi", "Bentley", "BMW", "Bugatti",
   "Cadillac", "Chevrolet", "Chrysler", "Citroën", "Citroen", "Cupra", "Dacia",
   "Dodge", "Ferrari", "Fiat", "Ford", "Honda", "Hummer", "Hyundai", "Infiniti",
   "Jaguar", "Jeep", "Kia", "Lamborghini", "Lancia", "Land Rover", "Lexus",
   "Maserati", "Mazda", "McLaren", "Mercedes-Benz", "Mercedes", "MG", "Mini",
   "Mitsubishi", "Nissan", "Opel", "Peugeot", "Porsche", "Renault", "Rolls-Royce",
   "Saab", "Seat", "Skoda", "Smart", "Subaru", "Suzuki", "Tesla", "Toyota",
   "Volkswagen", "VW", "Volvo"]

/-- Case-insensitive prefix match (`re.IGNORECASE`), ASCII casing. -/
def matchesCI : List Char → List Char → Bool
  | [], _ => true
  | _ :: _, [] => false
  | p :: ps, t :: ts => (p.toUpper == t.toUpper) && matchesCI ps ts

/-- `re.search` for `\b{re.escape(brand)}\b` with IGNORECASE (app.py lines
550-551): scan for the leftmost case-insensitive occurrence of the brand with
word boundaries on both sides (every catalog brand starts and ends with a word
character) and return `title[match.end():]`. -/
def findBrandRest (bs : List Char) : Option Char → List Char → Option (List Char)
  | _, [] => none
  | prev, t :: ts =>
      if boundaryBefore prev && matchesCI bs (t :: ts)
          && boundaryAfter ((t :: ts).drop bs.length) then
        some ((t :: ts).drop bs.length)
      else findBrandRest bs (some t) ts

/-- Python `\s` restricted to ASCII. -/
def isSpaceChar (ch : Char) : Bool :=
  ch == ' ' || ch == '\t' || ch == '\n' || ch == '\r' || ch == '\x0b' || ch == '\x0c'

/-- Python `str.strip()` (ASCII whitespace). -/
def stripWS (s : List Char) : List Char :=
  ((s.dropWhile isSpaceChar).reverse.dropWhile isSpaceChar).reverse

/-- The regex character class `[A-Za-z0-9\-]`. -/
def tokenCharOk (ch : Char) : Bool := ch.isAlphanum || ch == '-'

/-- A match of `([A-Za-z0-9\-]+(?:\s+[A-Za-z0-9\-]+)?)` anchored at the head of
`s`: a greedy run of token characters, optionally extended by whitespace and a
second greedy run (the option is taken when possible). -/
def groupAt : List Char → Option (List Char)
  | [] => none
  | ch :: rest =>
      if tokenCharOk ch then
        let t1 := (ch :: rest).takeWhile tokenCharOk
        let r1 := (ch :: rest).dropWhile tokenCharOk
        let sp := r1.takeWhile isSpaceChar
        let r2 := r1.dropWhile isSpaceChar
        match r2 with
        | c2 :: _ =>
            if !sp.isEmpty && tokenCharOk c2 then
              some (t1 ++ sp ++ r2.takeWhile tokenCharOk)
            else some t1
        | [] => some t1
      else none

/-- Backtracking of the greedy star in `^[\s\-]*(...)`: the star first consumes
`j` characters and yields a match iff the group matches at offset `j`; offsets
are tried from the longest prefix of `[\s\-]` characters down to 0. -/
def starThenGroup (s : List Char) : Nat → Option (List Char)
  | 0 => groupAt s
  | j + 1 =>
      match groupAt (s.drop (j + 1)) with
      | some g => some g
      | none => starThenGroup s j

/-- `re.match(r'^[\s\-]*([A-Za-z0-9\-]+(?:\s+[A-Za-z0-9\-]+)?)', after_brand)`
(app.py line 555), returning the captured group. -/
def modelTokenMatch (s : List Char) : Option (List Char) :=
  starThenGroup s ((s.takeWhile (fun ch => isSpaceChar ch || ch == '-')).length)

/-- `re.sub(r'[^\w\s\-]', '', model)` (app.py line 558): keep only word
characters, whitespace and hyphens. -/
def scrub (s : List Char) : List Char :=
  s.filter (fun ch => isWordChar ch || isSpaceChar ch || ch == '-')

/-- Body of `_parse_brand_model` once a brand passed the substring test (app.py
lines 549-562): word-boundary search, model-token match on the stripped
remainder, punctuation scrub, and the `len(model) > 1` check; every path returns
the brand. -/
def brandResult (bs : List Char) (title : List Char) :
    Option (List Char) × Option (List Char) :=
  match findBrandRest bs none title with
  | none => (some bs, none)
  | some rest =>
      let after := stripWS rest
      match modelTokenMatch after with
      | none => (some bs, none)
      | some g =>
          let m := stripWS (scrub g)
          if m ≠ [] ∧ m.length > 1 then (some bs, some m) else (some bs, none)

/-- `WillhabenScraper._parse_brand_model` (app.py lines 533-564): the first
catalog brand whose uppercased name occurs as a substring of the uppercased
title wins; if none occurs, both results are absent. -/
def parseBrandModelCL (title : List Char) : Option (List Char) × Option (List Char) :=
  match commonBrands.find? (fun b => hasSubstrCL (upperL b.data) (upperL title)) with
  | none => (none, none)
  | some brand => brandResult brand.data title

def parseBrandModel (title : String) : Option String × Option String :=
  ((parseBrandModelCL title.data).1.map (fun l => String.mk l),
   (parseBrandModelCL title.data).2.map (fun l => String.mk l))

def titleBMW : String := "BMW 320d Touring"

def titleNoBrand : String := "Fahrrad"

def bmwBrand : String := "BMW"

def bmwModelFull : String := "320d Touring"

def bmwModelClaim : String := "320d"

/-- Claim-side notion of "occurs case-insensitively as a substring": some
position of the text starts a character-by-character case-insensitive match of
the pattern. -/
def ciOccurs (pat : List Char) : List Char → Bool
  | [] => pat.isEmpty
  | t :: ts => matchesCI pat (t :: ts) || ciOccurs pat ts

/-- Claim-side model rule on the stripped text following the brand occurrence:
skip the leading run of whitespace and hyphens; a model exists only when an
alphanumeric character follows; it is the maximal run of alphanumeric/hyphen
characters from there, extended by one whitespace-separated second maximal run
when present, punctuation-scrubbed, and kept only when longer than one
character. -/
def specModelCore (after : List Char) : Option (List Char) :=
  match after.dropWhile (fun ch => isSpaceChar ch || ch == '-') with
  | c :: rest =>
      if c.isAlphanum then
        let start := c :: rest
        let t1 := start.takeWhile tokenCharOk
        let r1 := start.dropWhile tokenCharOk
        let sp := r1.takeWhile isSpaceChar
        let r2 := r1.dropWhile isSpaceChar
        let g :=
          match r2 with
          | c2 :: _ =>
              if !sp.isEmpty && tokenCharOk c2 then t1 ++ sp ++ r2.takeWhile tokenCharOk
              else t1
          | [] => t1
        let m := stripWS (scrub g)
        if m ≠ [] ∧ m.length > 1 then some m else none
      else none
  | [] => none

def specModelOf (rest : List Char) : Option (List Char) :=
  specModelCore (stripWS rest)

/-- The brand/model extractor as the amended claim words it: the first catalog
brand occurring case-insensitively as a substring of the title; the model is
computed by `specModelOf` from the text after the first word-boundary
case-insensitive brand occurrence, when one exists. -/
def specBrandModelCL (title : List Char) : Option (List Char) × Option (List Char) :=
  match commonBrands.find? (fun b => ciOccurs b.data title) with
  | none => (none, none)
  | some brand =>
      match findBrandRest brand.data none title with
      | none => (some brand.data, none)
      | some rest => (some brand.data, specModelOf rest)

def specBrandModel (title : String) : Option String × Option String :=
  ((specBrandModelCL title.data).1.map (fun l => String.mk l),
   (specBrandModelCL title.data).2.map (fun l => String.mk l))

lemma updateFirst_map_eq {α : Type} (g : Car → α) (lid : String) (f : Car → Car)
    (hf : ∀ c, g (f c) = g c) :
    ∀ l : List Car, (updateFirst lid f l).map g = l.map g := by
  intro l
  induction l with
  | nil => rfl
  | cons c rest ih =>
    by_cases h : c.listingId == lid
    · simp [updateFirst, h, hf]
    · simp [updateFirst, h, ih]

lemma mem_updateFirst {c0 : Car} {lid : String} {f : Car → Car} :
    ∀ {l : List Car}, c0 ∈ updateFirst lid f l → c0 ∈ l ∨ ∃ c1 ∈ l, c0 = f c1 := by
  intro l
  induction l with
  | nil => intro h; simp [updateFirst] at h
  | cons c rest ih =>
    intro h
    by_cases hc : c.listingId == lid
    · simp only [updateFirst] at h
      rw [if_pos hc] at h
      rcases List.mem_cons.mp h with h1 | h2
      · exact Or.inr ⟨c, List.mem_cons_self c rest, h1⟩
      · exact Or.inl (List.mem_cons_of_mem c h2)
    · simp only [updateFirst] at h
      rw [if_neg hc] at h
      rcases List.mem_cons.mp h with h1 | h2
      · exact Or.inl (h1 ▸ List.mem_cons_self c rest)
      · rcases ih h2 with h3 | ⟨c1, hc1, he⟩
        · exact Or.inl (List.mem_cons_of_mem c h3)
        · exact Or.inr ⟨c1, List.mem_cons_of_mem c hc1, he⟩

lemma containsId_eq_any_map (l : List Car) (lid : String) :
    containsId l lid = (l.map (fun c => c.listingId)).any (fun x => x == lid) := by
  induction l with
  | nil => rfl
  | cons c rest ih =>
    simp only [containsId, List.map_cons, List.any_cons] at *
    rw [ih]

lemma containsId_congr {l l' : List Car}
    (h : l.map (fun c => c.listingId) = l'.map (fun c => c.listingId)) (lid : String) :
    containsId l lid = containsId l' lid := by
  rw [containsId_eq_any_map, containsId_eq_any_map, h]

lemma loop_all_found (now : Int) :
    ∀ (scraped : List CarData) (st : LoopState),
      (∀ d ∈ scraped, containsId st.store d.listingId = true) →
      ((scraped.foldl (processCar now) st).store.map (fun c => c.listingId)
          = st.store.map (fun c => c.listingId)) ∧
      ((scraped.foldl (processCar now) st).store.map (fun c => c.firstSeenAt)
          = st.store.map (fun c => c.firstSeenAt)) ∧
      (scraped.foldl (processCar now) st).added = st.added ∧
      (scraped.foldl (processCar now) st).updated = st.updated + scraped.length ∧
      (scraped.foldl (processCar now) st).newIds = st.newIds := by
  intro scraped
  induction scraped with
  | nil => intro st _; exact ⟨rfl, rfl, rfl, rfl, rfl⟩
  | cons d rest ih =>
    intro st h
    have hd : containsId st.store d.listingId = true := h d (List.mem_cons_self d rest)
    have hstep : processCar now st d =
        { st with
          store := updateFirst d.listingId (fun c => updateExisting c d now) st.store
          updated := st.updated + 1 } := by
      rw [processCar, if_pos hd]
    have hids : (processCar now st d).store.map (fun c => c.listingId)
        = st.store.map (fun c => c.listingId) := by
      rw [hstep]
      exact updateFirst_map_eq (fun c => c.listingId) d.listingId
        (fun c => updateExisting c d now) (fun c => rfl) st.store
    have hfst : (processCar now st d).store.map (fun c => c.firstSeenAt)
        = st.store.map (fun c => c.firstSeenAt) := by
      rw [hstep]
      exact updateFirst_map_eq (fun c => c.firstSeenAt) d.listingId
        (fun c => updateExisting c d now) (fun c => rfl) st.store
    have hrest : ∀ d2 ∈ rest, containsId (processCar now st d).store d2.listingId = true := by
      intro d2 hm
      rw [containsId_congr hids]
      exact h d2 (List.mem_cons_of_mem d hm)
    obtain ⟨h1, h2, h3, h4, h5⟩ := ih (processCar now st d) hrest
    simp only [List.foldl_cons]
    refine ⟨h1.trans hids, h2.trans hfst, ?_, ?_, ?_⟩
    · rw [h3, hstep]
    · rw [h4, hstep, List.length_cons]
      show st.updated + 1 + rest.length = st.updated + (rest.length + 1)
      omega
    · rw [h5, hstep]

lemma processCar_inactive_mem (now : Int) (st : LoopState) (d : CarData) (c0 : Car)
    (h : c0 ∈ (processCar now st d).store) (hinact : c0.isActive = false) :
    c0 ∈ st.store := by
  rw [processCar] at h
  by_cases hfound : containsId st.store d.listingId
  · rw [if_pos hfound] at h
    have h2 : c0 ∈ updateFirst d.listingId (fun c => updateExisting c d now) st.store := h
    rcases mem_updateFirst h2 with h1 | ⟨c1, hc1, he⟩
    · exact h1
    · rw [he] at hinact; simp [updateExisting] at hinact
  · rw [if_neg hfound] at h
    have h2 : c0 ∈ st.store ++ [newCar d now] := h
    rcases List.mem_append.mp h2 with h1 | h3
    · exact h1
    · have he : c0 = newCar d now := by simpa using h3
      rw [he] at hinact; simp [newCar] at hinact

lemma loop_inactive (now : Int) :
    ∀ (scraped : List CarData) (st : LoopState) (c : Car),
      c ∈ (scraped.foldl (processCar now) st).store → c.isActive = false → c ∈ st.store := by
  intro scraped
  induction scraped with
  | nil => intro st c hmem _; exact hmem
  | cons d rest ih =>
    intro st c hmem hact
    simp only [List.foldl_cons] at hmem
    exact processCar_inactive_mem now st d c (ih (processCar now st d) c hmem hact) hact

lemma processCar_seen (now : Int) (st : LoopState) (d : CarData)
    (h : ∀ c ∈ st.store, c.firstSeenAt ≤ c.lastSeenAt ∧ c.firstSeenAt ≤ now) :
    ∀ c ∈ (processCar now st d).store,
      c.firstSeenAt ≤ c.lastSeenAt ∧ c.firstSeenAt ≤ now := by
  intro c hmem
  rw [processCar] at hmem
  by_cases hfound : containsId st.store d.listingId
  · rw [if_pos hfound] at hmem
    have h2 : c ∈ updateFirst d.listingId (fun c => updateExisting c d now) st.store := hmem
    rcases mem_updateFirst h2 with h1 | ⟨c1, hc1, he⟩
    · exact h c h1
    · have hc1inv := h c1 hc1
      rw [he]
      exact ⟨hc1inv.2, hc1inv.2⟩
  · rw [if_neg hfound] at hmem
    have h2 : c ∈ st.store ++ [newCar d now] := hmem
    rcases List.mem_append.mp h2 with h1 | h3
    · exact h c h1
    · have he : c = newCar d now := by simpa using h3
      rw [he]
      exact ⟨le_refl now, le_refl now⟩

lemma loop_seen (now : Int) :
    ∀ (scraped : List CarData) (st : LoopState),
      (∀ c ∈ st.store, c.firstSeenAt ≤ c.lastSeenAt ∧ c.firstSeenAt ≤ now) →
      ∀ c ∈ (scraped.foldl (processCar now) st).store,
        c.firstSeenAt ≤ c.lastSeenAt ∧ c.firstSeenAt ≤ now := by
  intro scraped
  induction scraped with
  | nil => intro st h; exact h
  | cons d rest ih =>
    intro st h
    simp only [List.foldl_cons]
    exact ih (processCar now st d) (processCar_seen now st d h)

lemma mem_deactivateMissing {c : Car} {ids : List String} {store : List Car}
    (h : c ∈ deactivateMissing ids store) :
    ∃ c0 ∈ store,
      c = if !containsStr ids c0.listingId && c0.isActive
          then { c0 with isActive := false } else c0 := by
  rw [deactivateMissing] at h
  obtain ⟨c0, hc0, he⟩ := List.mem_map.mp h
  exact ⟨c0, hc0, he.symm⟩

lemma deactivateMissing_map_eq {α : Type} (g : Car → α)
    (hg : ∀ c : Car, g { c with isActive := false } = g c)
    (ids : List String) (store : List Car) :
    (deactivateMissing ids store).map g = store.map g := by
  rw [deactivateMissing, List.map_map]
  refine List.map_congr_left ?_
  intro c _
  simp only [Function.comp_apply]
  by_cases hcond : (!containsStr ids c.listingId && c.isActive) = true
  · rw [if_pos hcond]; exact hg c
  · rw [if_neg hcond]

lemma scrapeAndStore_fst (scraped : List CarData) (store : List Car) (now : Int) :
    (scrapeAndStoreCars scraped store now).1
      = if batchIds scraped ≠ [] ∧ scraped.length > 10
        then deactivateMissing (batchIds scraped) (loopResult scraped store now).store
        else (loopResult scraped store now).store := rfl

lemma scrapeAndStore_log (scraped : List CarData) (store : List Car) (now : Int) :
    (scrapeAndStoreCars scraped store now).2.1
      = { carsFound := scraped.length, carsAdded := (loopResult scraped store now).added,
          carsUpdated := (loopResult scraped store now).updated,
          status := statusSuccess, errorMessage := none } := rfl

lemma enrichUpdate_timestamps (c : Car) (images : List String) (p : Option Int) :
    (enrichUpdate c images p).firstSeenAt = c.firstSeenAt ∧
    (enrichUpdate c images p).lastSeenAt = c.lastSeenAt := by
  cases p <;> constructor <;> simp only [enrichUpdate] <;> (repeat' split) <;> rfl

lemma priorityEnrichUpdate_timestamps (c : Car) (images : List String) (p : Option Int) :
    (priorityEnrichUpdate c images p).firstSeenAt = c.firstSeenAt ∧
    (priorityEnrichUpdate c images p).lastSeenAt = c.lastSeenAt := by
  cases p <;> constructor <;> simp only [priorityEnrichUpdate] <;> (repeat' split) <;> rfl

lemma enrichUpdate_imageUrls (c : Car) (images : List String) (p : Option Int) :
    (enrichUpdate c images p).imageUrls
      = if images ≠ [] ∧ images.length > max c.imageUrls.length 1 then images
        else c.imageUrls := by
  cases p <;> simp only [enrichUpdate] <;> (repeat' split) <;> rfl

lemma enrichUpdate_postedAt (c : Car) (images : List String) (p : Option Int) :
    (enrichUpdate c images p).postedAt
      = match p with
        | some v => if c.postedAt ≠ some v then some v else c.postedAt
        | none => c.postedAt := by
  cases p <;> simp only [enrichUpdate] <;> (repeat' split) <;> rfl

lemma priorityEnrichUpdate_imageUrls (c : Car) (images : List String) (p : Option Int) :
    (priorityEnrichUpdate c images p).imageUrls
      = if images ≠ [] ∧ (c.imageUrls = [] ∨ c.imageUrls.length ≤ 1) then images
        else c.imageUrls := by
  cases p <;> simp only [priorityEnrichUpdate] <;> (repeat' split) <;> rfl

lemma priorityEnrichUpdate_postedAt (c : Car) (images : List String) (p : Option Int) :
    (priorityEnrichUpdate c images p).postedAt
      = match p with
        | some v => if c.postedAt = none ∨ c.postedAt ≠ some v then some v else c.postedAt
        | none => c.postedAt := by
  cases p <;> simp only [priorityEnrichUpdate] <;> (repeat' split) <;> rfl

lemma cleanup_filter_idem (p : Car → Bool) (l : List Car) :
    (l.filter p).filter p = l.filter p := by
  induction l with
  | nil => rfl
  | cons c rest ih =>
    by_cases h : p c = true
    · simp [List.filter, h, ih]
    · simp only [Bool.not_eq_true] at h
      simp [List.filter, h, ih]

/-- C6: the retention sweeper keeps every active car, deletes exactly the
inactive cars whose `lastSeenAt` is older than the 7-day window, and is
idempotent at a fixed instant. -/
theorem claim6_retention_sweeper (store : List Car) (now : Int) (c : Car) :
    (c ∈ store → c.isActive = true → c ∈ cleanupInactiveCars store now) ∧
    (c ∈ store → c.isActive = false → c.lastSeenAt < now - 7 * secondsPerDay →
      c ∉ cleanupInactiveCars store now) ∧
    (c ∈ store → ¬(c.isActive = false ∧ c.lastSeenAt < now - 7 * secondsPerDay) →
      c ∈ cleanupInactiveCars store now) ∧
    cleanupInactiveCars (cleanupInactiveCars store now) now = cleanupInactiveCars store now := by
  refine ⟨?_, ?_, ?_, ?_⟩
  · intro hmem hact
    simp [cleanupInactiveCars, List.mem_filter, hmem, hact]
  · intro hmem hact hold hcontra
    rw [cleanupInactiveCars, List.mem_filter] at hcontra
    rcases hcontra with ⟨-, hkeep⟩
    simp [hact, hold] at hkeep
  · intro hmem hnot
    rw [cleanupInactiveCars, List.mem_filter]
    refine ⟨hmem, ?_⟩
    by_cases hact : c.isActive = true
    · simp [hact]
    · simp only [Bool.not_eq_true] at hact
      by_cases hold : c.lastSeenAt < now - 7 * secondsPerDay
      · exact absurd ⟨by simp [hact], hold⟩ hnot
      · simp [hact, hold]
  · exact cleanup_filter_idem _ _

/-- C6 witness: at `now = 0`, the inactive car last seen 8 days ago is deleted
and the inactive car last seen 6 days ago is retained. -/
theorem claim6_retention_sweeper_witness :
    (carOld ∉ cleanupInactiveCars [carOld, carRecentInactive] 0) ∧
    (carRecentInactive ∈ cleanupInactiveCars [carOld, carRecentInactive] 0) :=
  ⟨(claim6_retention_sweeper [carOld, carRecentInactive] 0 carOld).2.1
      (by decide) (by decide) (by decide),
   (claim6_retention_sweeper [carOld, carRecentInactive] 0 carRecentInactive).2.2.1
      (by decide) (by decide)⟩

/-- C1: in a reconciliation run, if the batch has more than 10 records then
every listing in the resulting store whose id is absent from the batch id set
ends up inactive (in particular every previously active such listing is
deactivated); if the batch has at most 10 records, no listing is deactivated:
any inactive listing after the run was already inactive in the store before it. -/
theorem claim1_deactivation_guard (scraped : List CarData) (store : List Car) (now : Int) :
    (scraped.length > 10 →
      ∀ c ∈ (scrapeAndStoreCars scraped store now).1,
        containsStr (batchIds scraped) c.listingId = false → c.isActive = false) ∧
    (scraped.length ≤ 10 →
      ∀ c ∈ (scrapeAndStoreCars scraped store now).1, c.isActive = false →
        store.any (fun c0 => c0.listingId == c.listingId && !c0.isActive) = true) := by
  constructor
  · intro hlen c hmem hni
    have hids : batchIds scraped ≠ [] := by
      intro hnil
      have hl : (batchIds scraped).length = scraped.length := List.length_map scraped _
      rw [hnil] at hl
      simp only [List.length_nil] at hl
      omega
    rw [scrapeAndStore_fst, if_pos ⟨hids, hlen⟩] at hmem
    obtain ⟨c0, hc0, hceq⟩ := mem_deactivateMissing hmem
    by_cases hcond : (!containsStr (batchIds scraped) c0.listingId && c0.isActive) = true
    · rw [if_pos hcond] at hceq
      rw [hceq]
    · rw [if_neg hcond] at hceq
      subst hceq
      simp only [hni, Bool.not_false, Bool.true_and] at hcond
      exact Bool.not_eq_true _ ▸ hcond
  · intro hlen c hmem hact
    have hskip : ¬(batchIds scraped ≠ [] ∧ scraped.length > 10) := by
      rintro ⟨-, hgt⟩
      omega
    rw [scrapeAndStore_fst, if_neg hskip] at hmem
    have hmem0 : c ∈ store := loop_inactive now scraped ⟨store, 0, 0, []⟩ c hmem hact
    rw [List.any_eq_true]
    refine ⟨c, hmem0, ?_⟩
    simp [hact]

/-- C1 witness: with store `[carA]` and 11 fresh batch ids, `carA` (absent from
the batch) is deactivated; with store `[carA, carInact]` and 5 fresh batch ids,
the only inactive listing after the run was inactive before it. -/
theorem claim1_deactivation_guard_witness :
    carADeact.isActive = false ∧
    [carA, carInact].any
      (fun c0 => c0.listingId == carInact.listingId && !c0.isActive) = true :=
  ⟨(claim1_deactivation_guard batch11 [carA] 0).1 (by decide) carADeact
      (by decide) (by decide),
   (claim1_deactivation_guard batch5 [carA, carInact] 0).2 (by decide) carInact
      (by decide) (by decide)⟩

/-- C2 counterexample: the claim says the update never replaces a previously
known stored field value with an absent extraction, but `price` is overwritten
unconditionally: reconciling a batch record with absent price against a store
holding that id with price 5000 leaves the stored price absent. -/
theorem claim2_no_null_out_cex :
    carKnown.price = some 5000 ∧
    (scrapeAndStoreCars [dataAbsent] [carKnown] 5).1.map (fun c => c.price) = [none] := by
  constructor
  · rfl
  · decide

lemma updateFirst_decomp (lid : String) (f : Car → Car) :
    ∀ l : List Car, containsId l lid = true →
      ∃ pre c post, l = pre ++ c :: post ∧ containsId pre lid = false ∧
        (c.listingId == lid) = true ∧
        updateFirst lid f l = pre ++ f c :: post := by
  intro l
  induction l with
  | nil => intro h; simp [containsId] at h
  | cons c0 rest ih =>
    intro h
    by_cases hc : (c0.listingId == lid) = true
    · refine ⟨[], c0, rest, rfl, rfl, hc, ?_⟩
      simp [updateFirst, hc]
    · rw [Bool.not_eq_true] at hc
      have h2 : containsId rest lid = true := by
        simp only [containsId, List.any_cons, hc, Bool.false_or] at h
        exact h
      obtain ⟨pre, c, post, hdec, hpre, hcid, hupd⟩ := ih h2
      refine ⟨c0 :: pre, c, post, ?_, ?_, hcid, ?_⟩
      · rw [hdec, List.cons_append]
      · simp only [containsId, List.any_cons, hc, Bool.false_or]
        exact hpre
      · simp only [updateFirst, hc, Bool.false_eq_true, if_false, hupd, List.cons_append]

/-- C2 amended: for every batch record whose id is already persisted, the
Reconciliation Engine updates in place the first persisted listing bearing that
id — inserting nothing, touching no other listing, and counting one update —
and that update refreshes `lastSeenAt`, sets `active := true`, copies `price`
unconditionally (so an absent extraction clears a known price), overwrites
`postedAt`/`imageUrls` exactly when the batch provides a non-empty value (so
those two are never nulled out), and leaves every other stored field
(`firstSeenAt`, title, brand, model, year, mileage, location, url, description)
untouched. -/
theorem claim2_update_amended (st : LoopState) (d : CarData) (now : Int) (c : Car) :
    (containsId st.store d.listingId = true →
      ∃ pre c0 post,
        st.store = pre ++ c0 :: post ∧
        containsId pre d.listingId = false ∧
        c0.listingId = d.listingId ∧
        (processCar now st d).store = pre ++ updateExisting c0 d now :: post ∧
        (processCar now st d).added = st.added ∧
        (processCar now st d).updated = st.updated + 1 ∧
        (processCar now st d).newIds = st.newIds) ∧
    ((updateExisting c d now).lastSeenAt = now ∧
      (updateExisting c d now).isActive = true ∧
      (updateExisting c d now).price = d.price) ∧
    ((updateExisting c d now).firstSeenAt = c.firstSeenAt ∧
      (updateExisting c d now).title = c.title ∧
      (updateExisting c d now).brand = c.brand ∧
      (updateExisting c d now).model = c.model ∧
      (updateExisting c d now).year = c.year ∧
      (updateExisting c d now).mileage = c.mileage ∧
      (updateExisting c d now).location = c.location ∧
      (updateExisting c d now).url = c.url ∧
      (updateExisting c d now).description = c.description) ∧
    (d.postedAt.isSome = true → (updateExisting c d now).postedAt = d.postedAt) ∧
    (d.postedAt = none → (updateExisting c d now).postedAt = c.postedAt) ∧
    (d.imageUrls ≠ [] → (updateExisting c d now).imageUrls = d.imageUrls) ∧
    (d.imageUrls = [] → (updateExisting c d now).imageUrls = c.imageUrls) := by
  refine ⟨?_, ⟨rfl, rfl, rfl⟩, ⟨rfl, rfl, rfl, rfl, rfl, rfl, rfl, rfl, rfl⟩,
    ?_, ?_, ?_, ?_⟩
  · intro hfound
    obtain ⟨pre, c0, post, hdec, hpre, hcid, hupd⟩ :=
      updateFirst_decomp d.listingId (fun x => updateExisting x d now) st.store hfound
    have hstep : processCar now st d =
        { st with
          store := updateFirst d.listingId (fun x => updateExisting x d now) st.store
          updated := st.updated + 1 } := by
      rw [processCar, if_pos hfound]
    exact ⟨pre, c0, post, hdec, hpre, beq_iff_eq.mp hcid,
      by rw [hstep]; exact hupd, by rw [hstep], by rw [hstep], by rw [hstep]⟩
  · intro hs
    cases hp : d.postedAt with
    | none => rw [hp] at hs; simp at hs
    | some p => simp [updateExisting, hp]
  · intro hp
    simp [updateExisting, hp]
  · intro hne
    simp [updateExisting, hne]
  · intro he
    simp [updateExisting, he]

/-- C2 witness for the amended claim: the engine step on a one-car store
re-observing `carKnown` counts exactly one update, and the conditional
overwrites hold at concrete matched records with present resp. absent
`postedAt`/`imageUrls`. -/
theorem claim2_update_amended_witness :
    (processCar 5 ⟨[carKnown], 0, 0, []⟩ dataAbsent).updated = 1 ∧
    (updateExisting carKnown dataFull 5).postedAt = dataFull.postedAt ∧
    (updateExisting carKnown dataAbsent 5).postedAt = carKnown.postedAt ∧
    (updateExisting carKnown dataFull 5).imageUrls = dataFull.imageUrls ∧
    (updateExisting carKnown dataAbsent 5).imageUrls = carKnown.imageUrls := by
  refine ⟨?_, ?_, ?_, ?_, ?_⟩
  · obtain ⟨pre, c0, post, -, -, -, -, -, hupd, -⟩ :=
      (claim2_update_amended ⟨[carKnown], 0, 0, []⟩ dataAbsent 5 carKnown).1 (by decide)
    exact hupd
  · exact (claim2_update_amended ⟨[], 0, 0, []⟩ dataFull 5 carKnown).2.2.2.1 (by decide)
  · exact (claim2_update_amended ⟨[], 0, 0, []⟩ dataAbsent 5 carKnown).2.2.2.2.1 (by decide)
  · exact (claim2_update_amended ⟨[], 0, 0, []⟩ dataFull 5 carKnown).2.2.2.2.2.1 (by decide)
  · exact (claim2_update_amended ⟨[], 0, 0, []⟩ dataAbsent 5 carKnown).2.2.2.2.2.2 (by decide)

/-- C3: an errored candidate in the assembly loop is skipped and the rest of the
batch is processed exactly as if the candidate were not there; and a failure of
the whole run leaves the store untouched and produces a log row marked failed
carrying the captured message (the job itself is a total function: nothing
propagates). -/
theorem claim3_error_handling :
    (∀ (xs ys : List (Except String CarData)) (e : String),
      assembleCandidates (xs ++ Except.error e :: ys) = assembleCandidates (xs ++ ys)) ∧
    (∀ (msg : String) (store : List Car) (now : Int),
      (scrapeJob (Except.error msg) store now).2.1.status = statusFailed ∧
      (scrapeJob (Except.error msg) store now).2.1.errorMessage = some msg ∧
      (scrapeJob (Except.error msg) store now).1 = store) := by
  constructor
  · have haux : ∀ (xs : List (Except String CarData)) (acc : List CarData)
        (e : String) (ys : List (Except String CarData)),
        assembleAux acc (xs ++ Except.error e :: ys) = assembleAux acc (xs ++ ys) := by
      intro xs
      induction xs with
      | nil => intro acc e ys; rfl
      | cons r rest ih =>
        intro acc e ys
        cases r with
        | ok d => simp only [List.cons_append, assembleAux]; exact ih _ e ys
        | error e2 => simp only [List.cons_append, assembleAux]; exact ih _ e ys
    intro xs ys e
    exact haux xs [] e ys
  · intro msg store now
    exact ⟨rfl, rfl, rfl⟩

/-- C4: reconciling a nonempty batch all of whose ids are already persisted
yields `added = 0`, `updated = batch size`, and leaves every stored
`firstSeenAt` unchanged. -/
theorem claim4_rescan_idempotent (scraped : List CarData) (store : List Car) (now : Int)
    (_hne : scraped ≠ [])
    (hfound : ∀ d ∈ scraped, containsId store d.listingId = true) :
    (scrapeAndStoreCars scraped store now).2.1.carsAdded = 0 ∧
    (scrapeAndStoreCars scraped store now).2.1.carsUpdated = scraped.length ∧
    (scrapeAndStoreCars scraped store now).1.map (fun c => c.firstSeenAt)
      = store.map (fun c => c.firstSeenAt) := by
  obtain ⟨hids, hfst, hadd, hupd, -⟩ :=
    loop_all_found now scraped ⟨store, 0, 0, []⟩ hfound
  refine ⟨?_, ?_, ?_⟩
  · rw [scrapeAndStore_log]
    exact hadd
  · rw [scrapeAndStore_log]
    show (loopResult scraped store now).updated = scraped.length
    exact hupd.trans (Nat.zero_add scraped.length)
  · rw [scrapeAndStore_fst]
    by_cases hcond : batchIds scraped ≠ [] ∧ scraped.length > 10
    · rw [if_pos hcond,
        deactivateMissing_map_eq (fun c => c.firstSeenAt) (fun c => rfl) _ _]
      exact hfst
    · rw [if_neg hcond]
      exact hfst

/-- C4 witness: re-observing the single persisted car `carA` gives zero added,
one updated, and an unchanged `firstSeenAt` column. -/
theorem claim4_rescan_idempotent_witness :
    (scrapeAndStoreCars batchA [carA] 7).2.1.carsAdded = 0 ∧
    (scrapeAndStoreCars batchA [carA] 7).2.1.carsUpdated = batchA.length ∧
    (scrapeAndStoreCars batchA [carA] 7).1.map (fun c => c.firstSeenAt)
      = [carA].map (fun c => c.firstSeenAt) :=
  claim4_rescan_idempotent batchA [carA] 7 (by decide) (by decide)

/-- C5: a listing inserted on first observation has `firstSeenAt = lastSeenAt =
now` and `active = true` (insertion never produces an inactive listing); and
`lastSeenAt >= firstSeenAt` is preserved by every pipeline operation — the
reconciliation run (assuming the store satisfied it and the clock did not run
backwards), the two enrichment updates (which do not touch the timestamps), and
the retention sweeper (which only removes rows). -/
theorem claim5_timestamps_invariant (scraped : List CarData) (store : List Car) (now : Int)
    (d : CarData) (c : Car) (images : List String) (p : Option Int) :
    ((newCar d now).firstSeenAt = now ∧ (newCar d now).lastSeenAt = now ∧
      (newCar d now).isActive = true) ∧
    ((∀ c0 ∈ store, c0.firstSeenAt ≤ c0.lastSeenAt ∧ c0.firstSeenAt ≤ now) →
      ∀ c1 ∈ (scrapeAndStoreCars scraped store now).1,
        c1.firstSeenAt ≤ c1.lastSeenAt) ∧
    ((enrichUpdate c images p).firstSeenAt = c.firstSeenAt ∧
      (enrichUpdate c images p).lastSeenAt = c.lastSeenAt) ∧
    ((priorityEnrichUpdate c images p).firstSeenAt = c.firstSeenAt ∧
      (priorityEnrichUpdate c images p).lastSeenAt = c.lastSeenAt) ∧
    (∀ c1 ∈ cleanupInactiveCars store now, c1 ∈ store) := by
  refine ⟨⟨rfl, rfl, rfl⟩, ?_, enrichUpdate_timestamps c images p,
    priorityEnrichUpdate_timestamps c images p, ?_⟩
  · intro hinv c1 hmem
    have hloop : ∀ c2 ∈ (loopResult scraped store now).store,
        c2.firstSeenAt ≤ c2.lastSeenAt ∧ c2.firstSeenAt ≤ now :=
      loop_seen now scraped ⟨store, 0, 0, []⟩ hinv
    rw [scrapeAndStore_fst] at hmem
    by_cases hcond : batchIds scraped ≠ [] ∧ scraped.length > 10
    · rw [if_pos hcond] at hmem
      obtain ⟨c0, hc0, hceq⟩ := mem_deactivateMissing hmem
      have h0 := hloop c0 hc0
      by_cases hc : (!containsStr (batchIds scraped) c0.listingId && c0.isActive) = true
      · rw [if_pos hc] at hceq
        rw [hceq]
        exact h0.1
      · rw [if_neg hc] at hceq
        rw [hceq]
        exact h0.1
    · rw [if_neg hcond] at hmem
      exact (hloop c1 hmem).1
  · intro c1 hmem
    exact (List.mem_filter.mp hmem).1

/-- C5 witness: a concrete insertion at `now = 7`, the preserved ordering on the
one-car store after an empty reconciliation run, and survival of the active car
under the sweeper. -/
theorem claim5_timestamps_invariant_witness :
    ((newCar dataAbsent 7).firstSeenAt = 7 ∧ (newCar dataAbsent 7).lastSeenAt = 7 ∧
      (newCar dataAbsent 7).isActive = true) ∧
    carA.firstSeenAt ≤ carA.lastSeenAt ∧
    carA ∈ ([carA] : List Car) := by
  have h := claim5_timestamps_invariant [] [carA] 7 dataAbsent carA [] none
  exact ⟨h.1, h.2.1 (by decide) carA (by decide), h.2.2.2.2 carA (by decide)⟩

/-- C7 counterexample: the claim says the stored image list is replaced exactly
when the new set is strictly larger, for any current size including empty; but
with an empty stored list a strictly larger one-element gallery is not stored
(the code requires `len(new) > max(len(current), 1)`). -/
theorem claim7_enrichment_cex :
    (imgsOne.length > carNoImg.imageUrls.length) ∧
    (enrichUpdate carNoImg imgsOne none).imageUrls = carNoImg.imageUrls ∧
    carNoImg.imageUrls ≠ imgsOne := by
  decide

/-- C7 amended: the regular enrichment pass replaces the stored image list iff
the new gallery is nonempty and strictly larger than `max(current size, 1)`
(so it also has to beat the constant 1, which blocks 0->1 upgrades), and
replaces `postedAt` iff a new value was extracted that differs from the stored
one. -/
theorem claim7_enrichment_amended (c : Car) (images : List String) (p : Option Int) :
    ((images ≠ [] ∧ images.length > max c.imageUrls.length 1) →
      (enrichUpdate c images p).imageUrls = images) ∧
    (¬(images ≠ [] ∧ images.length > max c.imageUrls.length 1) →
      (enrichUpdate c images p).imageUrls = c.imageUrls) ∧
    (∀ v : Int, p = some v → c.postedAt ≠ some v →
      (enrichUpdate c images p).postedAt = some v) ∧
    (p = none → (enrichUpdate c images p).postedAt = c.postedAt) ∧
    (p = c.postedAt → (enrichUpdate c images p).postedAt = c.postedAt) := by
  refine ⟨?_, ?_, ?_, ?_, ?_⟩
  · intro h
    rw [enrichUpdate_imageUrls, if_pos h]
  · intro h
    rw [enrichUpdate_imageUrls, if_neg h]
  · intro v hv hne
    rw [enrichUpdate_postedAt, hv]
    exact if_pos hne
  · intro hp
    rw [enrichUpdate_postedAt, hp]
  · intro hp
    cases hc : c.postedAt with
    | none => rw [enrichUpdate_postedAt, hp, hc]
    | some v =>
      rw [enrichUpdate_postedAt, hp, hc]
      simp

/-- C7 witness for the amended claim: a 2-image gallery replaces a 1-image
store, a 1-image gallery does not, and `postedAt` is updated exactly on a
differing extracted value. -/
theorem claim7_enrichment_amended_witness :
    (enrichUpdate carOneImg imgsTwo none).imageUrls = imgsTwo ∧
    (enrichUpdate carOneImg imgsOne none).imageUrls = carOneImg.imageUrls ∧
    (enrichUpdate carOneImg [] (some 9)).postedAt = some 9 ∧
    (enrichUpdate carOneImg [] none).postedAt = carOneImg.postedAt :=
  ⟨(claim7_enrichment_amended carOneImg imgsTwo none).1 (by decide),
   (claim7_enrichment_amended carOneImg imgsOne none).2.1 (by decide),
   (claim7_enrichment_amended carOneImg [] (some 9)).2.2.1 9 rfl (by decide),
   (claim7_enrichment_amended carOneImg [] none).2.2.2.1 rfl⟩

/-- C10 counterexample: the claim says the priority enrichment overwrites the
stored image list whenever the listing currently has at most one image; but
when the extracted detail-page set is empty and the listing stores one image,
nothing is overwritten. -/
theorem claim10_priority_cex :
    carOneImg.imageUrls.length ≤ 1 ∧
    (priorityEnrichUpdate carOneImg [] none).imageUrls = carOneImg.imageUrls ∧
    carOneImg.imageUrls ≠ [] := by
  decide

/-- C10 amended: the priority enrichment overwrites the stored image list iff
the extracted set is nonempty and the listing currently has at most one image
(in particular even when the new set is not strictly larger, which the regular
pass would refuse), and overwrites `postedAt` iff a value was extracted that is
absent from or differs from the stored one. -/
theorem claim10_priority_amended (c : Car) (images : List String) (p : Option Int) :
    ((images ≠ [] ∧ c.imageUrls.length ≤ 1) →
      (priorityEnrichUpdate c images p).imageUrls = images) ∧
    ((images = [] ∨ c.imageUrls.length > 1) →
      (priorityEnrichUpdate c images p).imageUrls = c.imageUrls) ∧
    (∀ v : Int, p = some v → c.postedAt ≠ some v →
      (priorityEnrichUpdate c images p).postedAt = some v) ∧
    ((p = none ∨ p = c.postedAt) → (priorityEnrichUpdate c images p).postedAt = c.postedAt) ∧
    ((images ≠ [] ∧ c.imageUrls.length ≤ 1 ∧ ¬images.length > max c.imageUrls.length 1) →
      (priorityEnrichUpdate c images p).imageUrls = images ∧
      (enrichUpdate c images p).imageUrls = c.imageUrls) := by
  refine ⟨?_, ?_, ?_, ?_, ?_⟩
  · intro h
    rw [priorityEnrichUpdate_imageUrls, if_pos ⟨h.1, Or.inr h.2⟩]
  · intro h
    rw [priorityEnrichUpdate_imageUrls, if_neg]
    rintro ⟨hne, hsz⟩
    rcases h with h | h
    · exact hne h
    · rcases hsz with hsz | hsz
      · rw [hsz] at h
        simp at h
      · omega
  · intro v hv hne
    rw [priorityEnrichUpdate_postedAt, hv]
    exact if_pos (Or.inr hne)
  · intro hp
    rcases hp with hp | hp
    · rw [priorityEnrichUpdate_postedAt, hp]
    · cases hc : c.postedAt with
      | none => rw [priorityEnrichUpdate_postedAt, hp, hc]
      | some v =>
        rw [priorityEnrichUpdate_postedAt, hp, hc]
        simp
  · intro h
    refine ⟨?_, ?_⟩
    · rw [priorityEnrichUpdate_imageUrls, if_pos ⟨h.1, Or.inr h.2.1⟩]
    · rw [enrichUpdate_imageUrls, if_neg]
      rintro ⟨-, hsz⟩
      exact h.2.2 hsz

/-- C10 witness for the amended claim: a 1-image gallery overwrites a 1-image
store under the priority rule while the regular rule keeps the old list, and
`postedAt` is overwritten exactly on a new differing value. -/
theorem claim10_priority_amended_witness :
    ((priorityEnrichUpdate carOneImg imgsOne none).imageUrls = imgsOne ∧
      (enrichUpdate carOneImg imgsOne none).imageUrls = carOneImg.imageUrls) ∧
    (priorityEnrichUpdate carNoImg [] (some 9)).imageUrls = carNoImg.imageUrls ∧
    (priorityEnrichUpdate carOneImg [] (some 9)).postedAt = some 9 ∧
    (priorityEnrichUpdate carOneImg [] none).postedAt = carOneImg.postedAt :=
  ⟨(claim10_priority_amended carOneImg imgsOne none).2.2.2.2 (by decide),
   (claim10_priority_amended carNoImg [] (some 9)).2.1 (by decide),
   (claim10_priority_amended carOneImg [] (some 9)).2.2.1 9 rfl (by decide),
   (claim10_priority_amended carOneImg [] none).2.2.2.1 (Or.inl rfl)⟩

lemma isDigit_toNat {c : Char} (h : c.isDigit = true) : 48 ≤ c.toNat ∧ c.toNat ≤ 57 := by
  simp [Char.isDigit] at h
  exact h

lemma isDigit_of_toNat {c : Char} (h1 : 48 ≤ c.toNat) (h2 : c.toNat ≤ 57) :
    c.isDigit = true := by
  simp [Char.isDigit]
  exact ⟨h1, h2⟩

lemma char_eq_of_toNat {c cc : Char} (h : c.toNat = cc.toNat) : c = cc := by
  apply Char.ext
  apply UInt32.ext
  exact h

lemma yearDigits_iff (a b c d : Char) :
    yearDigits a b c d = true ↔
      (a.isDigit = true ∧ b.isDigit = true ∧ c.isDigit = true ∧ d.isDigit = true ∧
       1900 ≤ tokenVal a b c d ∧ tokenVal a b c d ≤ 2029) := by
  constructor
  · intro h
    simp only [yearDigits, Bool.or_eq_true, Bool.and_eq_true, Bool.or_eq_true,
      beq_iff_eq, and_assoc] at h
    rcases h with ⟨ha, hb, hc, hd⟩ | ⟨ha, hb, hc, hd⟩
    · subst ha
      subst hb
      obtain ⟨hc1, hc2⟩ := isDigit_toNat hc
      obtain ⟨hd1, hd2⟩ := isDigit_toNat hd
      refine ⟨by decide, by decide, hc, hd, ?_, ?_⟩ <;>
        (have e1 : ('1' : Char).toNat = 49 := rfl
         have e9 : ('9' : Char).toNat = 57 := rfl
         simp only [tokenVal, digitVal]
         omega)
    · subst ha
      subst hb
      obtain ⟨hd1, hd2⟩ := isDigit_toNat hd
      have hcv : c.toNat = 48 ∨ c.toNat = 49 ∨ c.toNat = 50 := by
        rcases hc with (hc | hc) | hc <;> subst hc <;> simp
      have e2 : ('2' : Char).toNat = 50 := rfl
      have e0 : ('0' : Char).toNat = 48 := rfl
      refine ⟨by decide, by decide, ?_, hd, ?_, ?_⟩
      · exact isDigit_of_toNat (by omega) (by omega)
      · simp only [tokenVal, digitVal]; omega
      · simp only [tokenVal, digitVal]; omega
  · rintro ⟨ha, hb, hc, hd, h1, h2⟩
    obtain ⟨ha1, ha2⟩ := isDigit_toNat ha
    obtain ⟨hb1, hb2⟩ := isDigit_toNat hb
    obtain ⟨hc1, hc2⟩ := isDigit_toNat hc
    obtain ⟨hd1, hd2⟩ := isDigit_toNat hd
    simp only [tokenVal, digitVal] at h1 h2
    have hA : a.toNat = 49 ∨ a.toNat = 50 := by omega
    rcases hA with hA | hA
    · have hB : b.toNat = 57 := by omega
      have ea : a = '1' := char_eq_of_toNat (by rw [hA]; decide)
      have eb : b = '9' := char_eq_of_toNat (by rw [hB]; decide)
      subst ea
      subst eb
      simp [yearDigits, hc, hd]
    · have hB : b.toNat = 48 := by omega
      have hC : c.toNat = 48 ∨ c.toNat = 49 ∨ c.toNat = 50 := by omega
      have ea : a = '2' := char_eq_of_toNat (by rw [hA]; decide)
      have eb : b = '0' := char_eq_of_toNat (by rw [hB]; decide)
      subst ea
      subst eb
      have ec : c = '0' ∨ c = '1' ∨ c = '2' := by
        rcases hC with hC | hC | hC
        · exact Or.inl (char_eq_of_toNat (by rw [hC]; decide))
        · exact Or.inr (Or.inl (char_eq_of_toNat (by rw [hC]; decide)))
        · exact Or.inr (Or.inr (char_eq_of_toNat (by rw [hC]; decide)))
      rcases ec with ec | ec | ec <;> subst ec <;> simp [yearDigits, hd]

lemma yearTokenAt_eq (prev : Option Char) (s : List Char) :
    yearTokenAt prev s = rangeTokenAt prev s := by
  rcases s with _ | ⟨a, _ | ⟨b, _ | ⟨c, _ | ⟨d, rest⟩⟩⟩⟩
  · rfl
  · rfl
  · rfl
  · rfl
  · simp only [yearTokenAt, rangeTokenAt]
    by_cases h : (boundaryBefore prev && yearDigits a b c d && boundaryAfter rest) = true
    · have h2 := h
      rw [Bool.and_eq_true, Bool.and_eq_true] at h2
      obtain ⟨⟨hbb, hyd⟩, hba⟩ := h2
      obtain ⟨h1, h2, h3, h4, h5, h6⟩ := (yearDigits_iff a b c d).mp hyd
      rw [if_pos h, if_pos ⟨hbb, h1, h2, h3, h4, h5, h6, hba⟩]
    · rw [if_neg h, if_neg ?_]
      rintro ⟨hbb, h1, h2, h3, h4, h5, h6, hba⟩
      apply h
      rw [Bool.and_eq_true, Bool.and_eq_true]
      exact ⟨⟨hbb, (yearDigits_iff a b c d).mpr ⟨h1, h2, h3, h4, h5, h6⟩⟩, hba⟩

lemma findYear_eq (s : List Char) : ∀ prev, findPatternYear prev s = findRangeYear prev s := by
  induction s with
  | nil => intro prev; rfl
  | cons ch rest ih =>
    intro prev
    simp only [findPatternYear, findRangeYear, yearTokenAt_eq]
    cases h : rangeTokenAt prev (ch :: rest) with
    | some v => simp only [h]
    | none => simp only [h]; exact ih (some ch)

/-- C8 counterexample: on the text "2029 2021" the claimed extractor skips the
out-of-window token 2029 and returns 2021, the first 4-digit token in
[1900,2099] that also lies in [1990, 2026+1]; the code instead takes the first
regex match 2029, finds it outside its hardcoded window [1990,2025], and
returns absent. -/
theorem claim8_year_cex :
    extractYear txtTwoYears = none ∧ specYearClaim txtTwoYears 2026 = some 2021 := by
  constructor
  · decide
  · decide

/-- C8 amended: the year extractor takes the first boundary-delimited 4-digit
token whose value lies in [1900,2029] (the real range of `19\d{2}|20[0-2]\d`,
not [1900,2099]); it returns that token if it lies in the hardcoded window
[1990,2025] (not [1990, current_year+1]) and absent otherwise, never considering
later tokens; the spec's examples hold: "Baujahr 2021, 1.999ccm" gives 2021 and
"3102" gives absent. -/
theorem claim8_year_amended :
    (∀ t : String, extractYear t = specYearAmended t) ∧
    extractYear txtBaujahr = some 2021 ∧
    extractYear txt3102 = none := by
  refine ⟨?_, ?_, ?_⟩
  · intro t
    simp only [extractYear, specYearAmended, findYear_eq]
  · decide
  · decide

lemma tokenCharOk_of_space {c : Char} (h : isSpaceChar c = true) : tokenCharOk c = false := by
  simp only [isSpaceChar, Bool.or_eq_true, beq_iff_eq] at h
  rcases h with ((((h | h) | h) | h) | h) | h <;> subst h <;> decide

lemma takeWhile_append_all {p : Char → Bool} :
    ∀ {xs : List Char} (ys : List Char), (∀ c ∈ xs, p c = true) →
      (xs ++ ys).takeWhile p = xs ++ ys.takeWhile p := by
  intro xs
  induction xs with
  | nil => intro ys _; rfl
  | cons c rest ih =>
    intro ys h
    have hc : p c = true := h c (List.mem_cons_self c rest)
    simp only [List.cons_append, List.takeWhile_cons, hc, if_true]
    rw [ih ys (fun c2 h2 => h c2 (List.mem_cons_of_mem c h2))]

lemma dropWhile_append_all {p : Char → Bool} :
    ∀ {xs : List Char} (ys : List Char), (∀ c ∈ xs, p c = true) →
      (xs ++ ys).dropWhile p = ys.dropWhile p := by
  intro xs
  induction xs with
  | nil => intro ys _; rfl
  | cons c rest ih =>
    intro ys h
    have hc : p c = true := h c (List.mem_cons_self c rest)
    simp only [List.cons_append, List.dropWhile_cons, hc, if_true]
    exact ih ys (fun c2 h2 => h c2 (List.mem_cons_of_mem c h2))

lemma takeWhile_nil_of_head {p : Char → Bool} {l : List Char}
    (h : ∀ c tl, l = c :: tl → p c = false) : l.takeWhile p = [] := by
  cases hl : l with
  | nil => rfl
  | cons c tl => simp [List.takeWhile_cons, h c tl hl]

lemma dropWhile_self_of_head {p : Char → Bool} {l : List Char}
    (h : ∀ c tl, l = c :: tl → p c = false) : l.dropWhile p = l := by
  cases hl : l with
  | nil => rfl
  | cons c tl => simp [List.dropWhile_cons, h c tl hl]

lemma dropWhile_head_false {p : Char → Bool} :
    ∀ {l : List Char} {c : Char} {tl : List Char}, l.dropWhile p = c :: tl → p c = false := by
  intro l
  induction l with
  | nil => intro c tl h; simp at h
  | cons a rest ih =>
    intro c tl h
    by_cases ha : p a = true
    · simp only [List.dropWhile_cons, ha, if_true] at h
      exact ih h
    · rw [Bool.not_eq_true] at ha
      simp only [List.dropWhile_cons, ha, Bool.false_eq_true, if_false] at h
      obtain ⟨h1, -⟩ := List.cons.injEq .. ▸ h
      exact h1 ▸ ha

lemma drop_takeWhile_length (p : Char → Bool) :
    ∀ l : List Char, l.drop ((l.takeWhile p).length) = l.dropWhile p := by
  intro l
  induction l with
  | nil => rfl
  | cons c rest ih =>
    by_cases hc : p c = true
    · simp [List.takeWhile_cons, List.dropWhile_cons, hc, ih]
    · simp [List.takeWhile_cons, List.dropWhile_cons, hc]

lemma groupAt_isSome {c : Char} (tl : List Char) (h : tokenCharOk c = true) :
    (groupAt (c :: tl)).isSome = true := by
  simp only [groupAt]
  rw [if_pos h]
  repeat' split
  all_goals rfl

lemma starThenGroup_hit (s : List Char) :
    ∀ k, (groupAt (s.drop k)).isSome = true → starThenGroup s k = groupAt (s.drop k) := by
  intro k h
  cases k with
  | zero => simp only [starThenGroup, List.drop_zero]
  | succ j =>
    simp only [starThenGroup]
    cases hg : groupAt (s.drop (j + 1)) with
    | some g => simp only [hg]
    | none => rw [hg] at h; simp at h

lemma groupAt_dash (sp2 t : List Char)
    (hsp : ∀ c ∈ sp2, isSpaceChar c = true)
    (ht : ∀ c tl, t = c :: tl → tokenCharOk c = false ∧ isSpaceChar c = false) :
    groupAt ('-' :: (sp2 ++ t)) = some (['-'] : List Char) := by
  have htok : ∀ c ∈ sp2, tokenCharOk c = false := fun c hc => tokenCharOk_of_space (hsp c hc)
  have htail : (sp2 ++ t).takeWhile tokenCharOk = [] := by
    cases hs2 : sp2 with
    | nil =>
      simp only [List.nil_append]
      exact takeWhile_nil_of_head (fun c tl hh => (ht c tl hh).1)
    | cons c0 rest =>
      apply takeWhile_nil_of_head
      intro c tl hh
      rw [List.cons_append] at hh
      obtain ⟨h1, -⟩ := List.cons.injEq .. ▸ hh
      exact h1 ▸ htok c0 (by rw [hs2]; exact List.mem_cons_self c0 rest)
  have hdtail : (sp2 ++ t).dropWhile tokenCharOk = sp2 ++ t := by
    cases hs2 : sp2 with
    | nil =>
      simp only [List.nil_append]
      exact dropWhile_self_of_head (fun c tl hh => (ht c tl hh).1)
    | cons c0 rest =>
      apply dropWhile_self_of_head
      intro c tl hh
      rw [List.cons_append] at hh
      obtain ⟨h1, -⟩ := List.cons.injEq .. ▸ hh
      exact h1 ▸ htok c0 (by rw [hs2]; exact List.mem_cons_self c0 rest)
  have hsptake : (sp2 ++ t).takeWhile isSpaceChar = sp2 ++ t.takeWhile isSpaceChar :=
    takeWhile_append_all t hsp
  have httake : t.takeWhile isSpaceChar = [] :=
    takeWhile_nil_of_head (fun c tl hh => (ht c tl hh).2)
  have hspdrop : (sp2 ++ t).dropWhile isSpaceChar = t.dropWhile isSpaceChar :=
    dropWhile_append_all t hsp
  have htdrop : t.dropWhile isSpaceChar = t :=
    dropWhile_self_of_head (fun c tl hh => (ht c tl hh).2)
  simp only [groupAt]
  rw [if_pos (by decide : tokenCharOk (Char.ofNat 45) = true)]
  simp only [List.takeWhile_cons, List.dropWhile_cons]
  rw [if_pos (by decide : tokenCharOk (Char.ofNat 45) = true),
    if_pos (by decide : tokenCharOk (Char.ofNat 45) = true)]
  rw [htail, hdtail, hsptake, httake, hspdrop, htdrop, List.append_nil]
  cases htc : t with
  | nil => rfl
  | cons c2 tl2 =>
    dsimp only
    rw [if_neg]
    rw [Bool.and_eq_true]
    rintro ⟨-, h2⟩
    rw [(ht c2 tl2 htc).1] at h2
    exact Bool.false_ne_true h2
lemma groupAt_none_of_head {c : Char} (tl : List Char) (h : tokenCharOk c = false) :
    groupAt (c :: tl) = none := by
  simp only [groupAt]
  rw [if_neg]
  rw [h]
  exact Bool.false_ne_true

lemma starThenGroup_fallback (pre t : List Char)
    (hpre : ∀ c ∈ pre, (isSpaceChar c || c == '-') = true)
    (ht : ∀ c tl, t = c :: tl → tokenCharOk c = false ∧ isSpaceChar c = false) :
    ∀ j, j ≤ pre.length →
      (∀ c ∈ pre.drop (j + 1), isSpaceChar c = true) →
      (starThenGroup (pre ++ t) j = none ∨
       starThenGroup (pre ++ t) j = some (['-'] : List Char)) := by
  intro j
  induction j with
  | zero =>
    intro _ hsp
    simp only [starThenGroup]
    cases hp : pre with
    | nil =>
      left
      rw [List.nil_append]
      cases htc : t with
      | nil => rfl
      | cons c tl => exact groupAt_none_of_head tl (ht c tl htc).1
    | cons p0 pre2 =>
      have hp0 := hpre p0 (by rw [hp]; exact List.mem_cons_self p0 pre2)
      rw [Bool.or_eq_true, beq_iff_eq] at hp0
      have hpre2 : ∀ c ∈ pre2, isSpaceChar c = true := by
        intro c hc
        apply hsp
        rw [hp]
        exact hc
      rcases hp0 with hsp0 | hdash
      · left
        rw [List.cons_append]
        exact groupAt_none_of_head _ (tokenCharOk_of_space hsp0)
      · right
        subst hdash
        rw [List.cons_append]
        exact groupAt_dash pre2 t hpre2 ht
  | succ j ih =>
    intro hj hsp
    simp only [starThenGroup]
    have hdrop : (pre ++ t).drop (j + 1) = pre.drop (j + 1) ++ t :=
      List.drop_append_of_le_length hj
    cases hpd : pre.drop (j + 1) with
    | nil =>
      have hnone : groupAt ((pre ++ t).drop (j + 1)) = none := by
        rw [hdrop, hpd, List.nil_append]
        cases htc : t with
        | nil => rfl
        | cons c tl => exact groupAt_none_of_head tl (ht c tl htc).1
      simp only [hnone]
      apply ih (Nat.le_of_succ_le hj)
      intro c hc
      rw [hpd] at hc
      simp at hc
    | cons pj1 rest2 =>
      have hmem : pj1 ∈ pre := by
        have hmem0 : pj1 ∈ pre.drop (j + 1) := by
          rw [hpd]
          exact List.mem_cons_self pj1 rest2
        exact List.mem_of_mem_drop hmem0
      have hp1 := hpre pj1 hmem
      rw [Bool.or_eq_true, beq_iff_eq] at hp1
      have hrest2 : ∀ c ∈ rest2, isSpaceChar c = true := by
        intro c hc
        apply hsp
        have he : pre.drop (j + 1 + 1) = rest2 := by
          rw [show j + 1 + 1 = (j + 1) + 1 from rfl, ← List.drop_drop 1 (j + 1) pre, hpd]
          rfl
        rw [he]
        exact hc
      rcases hp1 with hsp1 | hdash
      · have hnone : groupAt ((pre ++ t).drop (j + 1)) = none := by
          rw [hdrop, hpd, List.cons_append]
          exact groupAt_none_of_head _ (tokenCharOk_of_space hsp1)
        simp only [hnone]
        apply ih (Nat.le_of_succ_le hj)
        intro c hc
        rw [hpd] at hc
        rcases List.mem_cons.mp hc with h1 | h2
        · rw [h1]
          exact hsp1
        · exact hrest2 c h2
      · subst hdash
        have hsome : groupAt ((pre ++ t).drop (j + 1)) = some (['-'] : List Char) := by
          rw [hdrop, hpd, List.cons_append]
          exact groupAt_dash rest2 t hrest2 ht
        simp only [hsome]
        right
        trivial

lemma modelTokenMatch_fallback (s : List Char)
    (h : ∀ c tl, s.dropWhile (fun ch => isSpaceChar ch || ch == '-') = c :: tl →
      c.isAlphanum = false) :
    modelTokenMatch s = none ∨ modelTokenMatch s = some (['-'] : List Char) := by
  have hsplit : s.takeWhile (fun ch => isSpaceChar ch || ch == '-')
      ++ s.dropWhile (fun ch => isSpaceChar ch || ch == '-') = s :=
    List.takeWhile_append_dropWhile _ s
  have hpre : ∀ c ∈ s.takeWhile (fun ch => isSpaceChar ch || ch == '-'),
      (isSpaceChar c || c == '-') = true := by
    intro c hc
    have h0 := List.mem_takeWhile_imp hc
    exact h0
  have ht : ∀ c tl, s.dropWhile (fun ch => isSpaceChar ch || ch == '-') = c :: tl →
      tokenCharOk c = false ∧ isSpaceChar c = false := by
    intro c tl hc
    have hna := h c tl hc
    have hnp : (isSpaceChar c || c == '-') = false := dropWhile_head_false hc
    rw [Bool.or_eq_false_iff] at hnp
    refine ⟨?_, hnp.1⟩
    rw [tokenCharOk, hna, hnp.2]
    rfl
  have hfb := starThenGroup_fallback
    (s.takeWhile (fun ch => isSpaceChar ch || ch == '-'))
    (s.dropWhile (fun ch => isSpaceChar ch || ch == '-'))
    hpre ht
    ((s.takeWhile (fun ch => isSpaceChar ch || ch == '-')).length)
    (le_refl _)
    (by
      intro c hc
      rw [List.drop_eq_nil_of_le (by omega)] at hc
      simp at hc)
  rw [hsplit] at hfb
  exact hfb

lemma modelTokenMatch_main (s : List Char) {c : Char} {tl : List Char}
    (hc : s.dropWhile (fun ch => isSpaceChar ch || ch == '-') = c :: tl)
    (ha : c.isAlphanum = true) :
    modelTokenMatch s = groupAt (c :: tl) := by
  have hk : s.drop ((s.takeWhile (fun ch => isSpaceChar ch || ch == '-')).length)
      = c :: tl := by
    rw [drop_takeWhile_length]
    exact hc
  have htok : tokenCharOk c = true := by
    rw [tokenCharOk, ha]
    rfl
  have hsome : (groupAt
      (s.drop ((s.takeWhile (fun ch => isSpaceChar ch || ch == '-')).length))).isSome
      = true := by
    rw [hk]
    exact groupAt_isSome tl htok
  have hhit := starThenGroup_hit s
    ((s.takeWhile (fun ch => isSpaceChar ch || ch == '-')).length) hsome
  calc modelTokenMatch s
      = starThenGroup s ((s.takeWhile (fun ch => isSpaceChar ch || ch == '-')).length) := rfl
    _ = groupAt (s.drop ((s.takeWhile (fun ch => isSpaceChar ch || ch == '-')).length)) := hhit
    _ = groupAt (c :: tl) := by rw [hk]

lemma brandModelPost_eq (after : List Char) :
    (match modelTokenMatch after with
     | none => none
     | some g =>
         if stripWS (scrub g) ≠ [] ∧ (stripWS (scrub g)).length > 1
         then some (stripWS (scrub g)) else none)
    = specModelCore after := by
  cases hc : after.dropWhile (fun ch => isSpaceChar ch || ch == '-') with
  | nil =>
    have hfb := modelTokenMatch_fallback after (by
      intro c2 tl2 h2
      rw [hc] at h2
      exact absurd h2 (by simp))
    rcases hfb with hfb | hfb
    · rw [hfb]
      simp [specModelCore, hc]
    · rw [hfb]
      simp only [specModelCore, hc]
      decide
  | cons c tl =>
    by_cases ha : c.isAlphanum = true
    · rw [modelTokenMatch_main after hc ha]
      have htok : tokenCharOk c = true := by
        rw [tokenCharOk, ha]
        rfl
      simp only [specModelCore, hc]
      rw [if_pos ha]
      simp only [groupAt]
      rw [if_pos htok]
      cases hr2 : ((c :: tl).dropWhile tokenCharOk).dropWhile isSpaceChar with
      | nil => simp only [hr2]
      | cons c2 l2 =>
        simp only [hr2]
        by_cases hcond :
            (!(((c :: tl).dropWhile tokenCharOk).takeWhile isSpaceChar).isEmpty
              && tokenCharOk c2) = true
        · rw [if_pos hcond, if_pos hcond]
        · rw [if_neg hcond, if_neg hcond]
    · rw [Bool.not_eq_true] at ha
      have hfb := modelTokenMatch_fallback after (by
        intro c2 tl2 h2
        rw [hc] at h2
        obtain ⟨h1, -⟩ := List.cons.injEq .. ▸ h2
        rw [← h1]
        exact ha)
      have hspec : specModelCore after = none := by
        simp only [specModelCore, hc]
        rw [if_neg]
        rw [ha]
        exact Bool.false_ne_true
      rw [hspec]
      rcases hfb with hfb | hfb
      · rw [hfb]
      · rw [hfb]
        decide

lemma brandResult_eq_spec (bs title : List Char) :
    brandResult bs title
      = (some bs,
         match findBrandRest bs none title with
         | none => none
         | some rest => specModelOf rest) := by
  simp only [brandResult]
  cases hf : findBrandRest bs none title with
  | none => rfl
  | some rest =>
    have h := brandModelPost_eq (stripWS rest)
    simp only [specModelOf]
    cases hm : modelTokenMatch (stripWS rest) with
    | none =>
      simp only [hm] at h
      simp only [hm]
      rw [← h]
    | some g =>
      simp only [hm] at h
      simp only [hm]
      by_cases hcond : stripWS (scrub g) ≠ [] ∧ (stripWS (scrub g)).length > 1
      · rw [if_pos hcond] at h ⊢
        rw [← h]
      · rw [if_neg hcond] at h ⊢
        rw [← h]

lemma startsWith_upper (p : List Char) :
    ∀ t, startsWithCL (upperL p) (upperL t) = matchesCI p t := by
  induction p with
  | nil => intro t; rfl
  | cons a ps ih =>
    intro t
    cases t with
    | nil => rfl
    | cons b ts =>
      show (a.toUpper == b.toUpper && startsWithCL (upperL ps) (upperL ts))
          = (a.toUpper == b.toUpper && matchesCI ps ts)
      rw [ih ts]

lemma hasSubstr_upper (p : List Char) :
    ∀ t, hasSubstrCL (upperL p) (upperL t) = ciOccurs p t := by
  intro t
  induction t with
  | nil =>
    show (upperL p).isEmpty = p.isEmpty
    cases p <;> rfl
  | cons b ts ih =>
    show (startsWithCL (upperL p) (upperL (b :: ts)) || hasSubstrCL (upperL p) (upperL ts))
        = (matchesCI p (b :: ts) || ciOccurs p ts)
    rw [startsWith_upper p (b :: ts), ih]

lemma find_brand_eq (title : List Char) :
    commonBrands.find? (fun b => hasSubstrCL (upperL b.data) (upperL title))
      = commonBrands.find? (fun b => ciOccurs b.data title) := by
  have he : (fun (b : String) => hasSubstrCL (upperL b.data) (upperL title))
      = fun b => ciOccurs b.data title := by
    funext b
    exact hasSubstr_upper b.data title
  rw [he]

lemma parseBrandModelCL_eq_spec (title : List Char) :
    parseBrandModelCL title = specBrandModelCL title := by
  simp only [parseBrandModelCL, specBrandModelCL, find_brand_eq]
  cases hf : commonBrands.find? (fun b => ciOccurs b.data title) with
  | none => rfl
  | some brand =>
    simp only []
    rw [brandResult_eq_spec]
    cases hr : findBrandRest brand.data none title <;> simp only [hr]

lemma brandResult_fst (bs : List Char) (title : List Char) :
    (brandResult bs title).1 = some bs := by
  simp only [brandResult]
  repeat' split
  all_goals rfl

/-- C9 counterexample: on the claim's own example "BMW 320d Touring" the code
returns as model the TWO tokens following the brand, "320d Touring" (the model
regex captures `[A-Za-z0-9\-]+(?:\s+[A-Za-z0-9\-]+)?`), not the single token
"320d" the claim requires. -/
theorem claim9_brand_model_cex :
    parseBrandModel titleBMW = (some bmwBrand, some bmwModelFull) ∧
    bmwModelFull ≠ bmwModelClaim := by
  constructor
  · decide
  · decide

/-- C9 amended: for every title the extractor agrees extensionally with the
claim-side description `specBrandModel`: the first catalog brand occurring
case-insensitively as a substring of the title is returned (with no such brand
both results are absent), and the model is computed from the text after the
first word-boundary occurrence of the brand by stripping whitespace, skipping
leading whitespace/hyphens, taking the maximal alphanumeric/hyphen run (one
token) optionally extended by whitespace and a second maximal run (two tokens),
scrubbing punctuation, and keeping the result only when longer than one
character; on "BMW 320d Touring" this yields brand "BMW" and model
"320d Touring". -/
theorem claim9_brand_model_amended :
    (∀ title : String, parseBrandModel title = specBrandModel title) ∧
    (∀ title : String,
      (∀ b ∈ commonBrands, hasSubstrCL (upperL b.data) (upperL title.data) = false) →
      parseBrandModel title = (none, none)) ∧
    (∀ (title : String) (b : String),
      commonBrands.find? (fun x => hasSubstrCL (upperL x.data) (upperL title.data))
        = some b →
      (parseBrandModel title).1 = some b) ∧
    parseBrandModel titleBMW = (some bmwBrand, some bmwModelFull) := by
  refine ⟨?_, ?_, ?_, by decide⟩
  · intro title
    simp only [parseBrandModel, specBrandModel, parseBrandModelCL_eq_spec]
  · intro title h
    have hfind : commonBrands.find?
        (fun b => hasSubstrCL (upperL b.data) (upperL title.data)) = none := by
      rw [List.find?_eq_none]
      intro b hb
      rw [h b hb]
      exact Bool.false_ne_true
    simp [parseBrandModel, parseBrandModelCL, hfind]
  · intro title b hfind
    show ((parseBrandModelCL title.data).1.map (fun l => String.mk l)) = some b
    rw [parseBrandModelCL, hfind, brandResult_fst]
    rfl

/-- C9 witness for the amended claim: a title containing no catalog brand gives
two absent results, and the title "BMW 320d Touring", on which the catalog
search finds "BMW", returns that brand. -/
theorem claim9_brand_model_amended_witness :
    parseBrandModel titleNoBrand = (none, none) ∧
    (parseBrandModel titleBMW).1 = some bmwBrand := by
  constructor
  · exact claim9_brand_model_amended.2.1 titleNoBrand (by decide)
  · exact claim9_brand_model_amended.2.2.1 titleBMW bmwBrand (by decide)
